import Mathlib

/-!
Verification of the statistics engine of the L-Atelier tennis-player API.

The development shallowly embeds `PlayerService.getSpecificStats`
(src/src/app.ts, lines 265-411).  JavaScript numbers are modelled as exact
rationals `ℚ`; `Math.round` is modelled as `fun x => ⌊x + 1/2⌋` (round half
toward positive infinity on exact values, which on the non-negative values
arising here agrees with round half away from zero).  The per-country
accumulator object keyed by `countryCode` is modelled as an association
list in insertion order, matching the iteration order of a JavaScript
object with short alphabetic string keys.  The two `throw` sites of the
source are modelled with `Except`.  The `calculatedAt` timestamp of the
result is observational metadata with no computational content and is
omitted from the embedded result.
-/

/-- Input record of the statistics engine.  `fullName` stands for the
source template string `firstname + " " + lastname`; `weightGrams` is
`data.weight`, `heightCm` is `data.height`, `lastFiveResults` is
`data.last`. -/
structure PlayerRecord where
  fullName : String
  countryCode : String
  weightGrams : ℚ
  heightCm : ℚ
  lastFiveResults : List ℚ
deriving DecidableEq

/-- Per-country accumulator built by the first pass
(source `countryStats[countryCode] = \x7b wins, total, players \x7d`). -/
structure CountryStat where
  wins : ℚ
  total : ℕ
  players : List String
deriving DecidableEq

/-- Running best of the selection pass (source local `bestCountry`).
The source field `ratio` is named `winRate` here, after the output field
it is copied into; it stores the ratio already rounded to 2 decimals. -/
structure BestCountry where
  code : String
  winRate : ℚ
  wins : ℚ
  total : ℕ
  players : List String
deriving DecidableEq

/-- The two throw sites of `getSpecificStats`. -/
inductive StatsError where
  | emptyDataSet
  | noValidAnthropometricData
deriving DecidableEq

/-- Result object assembled at the end of `getSpecificStats`
(`calculatedAt` omitted, see the file comment). -/
structure StatsResult where
  bestWinRateCountry : BestCountry
  averageIMC : ℚ
  medianHeight : ℚ
  totalPlayers : ℕ
deriving DecidableEq

/-- Exact model of the source idiom `Math.round(x * 100) / 100`
(round to 2 decimal places, halves toward positive infinity). -/
def jsRound2 (x : ℚ) : ℚ := ((⌊x * 100 + 1/2⌋ : ℤ) : ℚ) / 100

/-- Ratio of a country aggregate
(source `stats.total > 0 ? (stats.wins / stats.total) * 100 : 0`). -/
def ratioOf (s : CountryStat) : ℚ :=
  if 0 < s.total then s.wins / (s.total : ℚ) * 100 else 0

/-- One record folded into the per-country accumulator: on first sight of a
country a fresh entry is appended at the end (insertion order); otherwise
the existing entry is updated in place. -/
def updateAssoc (l : List (String × CountryStat)) (c : String) (w : ℚ)
    (t : ℕ) (n : String) : List (String × CountryStat) :=
  match l with
  | [] => [(c, ⟨w, t, [n]⟩)]
  | (c₀, s) :: rest =>
    if c₀ = c then (c₀, ⟨s.wins + w, s.total + t, s.players ++ [n]⟩) :: rest
    else (c₀, s) :: updateAssoc rest c w t n

/-- Source lines 281-295: add one player to `countryStats`.  The source
`player.data.last.reduce((sum, result) => sum + result, 0)` is the list
sum, and `player.data.last.length` the list length. -/
def addPlayer (acc : List (String × CountryStat)) (p : PlayerRecord) :
    List (String × CountryStat) :=
  updateAssoc acc p.countryCode p.lastFiveResults.sum
    p.lastFiveResults.length p.fullName

/-- The `countryStats` accumulator after the full pass over the players. -/
def countryStats (players : List PlayerRecord) : List (String × CountryStat) :=
  players.foldl addPlayer []

/-- Initial value of `bestCountry`
(source `\x7b code: "", ratio: 0, wins: 0, total: 0, players: [] \x7d`). -/
def initBest : BestCountry := ⟨"", 0, 0, 0, []⟩

/-- The record the source builds when a country replaces the running best:
its ratio is stored rounded to 2 decimal places. -/
def mkBest (e : String × CountryStat) : BestCountry :=
  ⟨e.1, jsRound2 (ratioOf e.2), e.2.wins, e.2.total, e.2.players⟩

/-- Source lines 306-320, loop body: the candidate country replaces the
running best when its raw ratio is strictly greater than the stored
(rounded) best ratio, or equals it while the best still holds the initial
sentinel code `""`. -/
def stepBest (b : BestCountry) (e : String × CountryStat) : BestCountry :=
  if ratioOf e.2 > b.winRate ∨ (ratioOf e.2 = b.winRate ∧ b.code = "")
  then mkBest e else b

/-- The best-country selection pass over the aggregates in insertion
order. -/
def bestOf (l : List (String × CountryStat)) : BestCountry :=
  l.foldl stepBest initBest

/-- Source lines 324-350: the BMI of one player, or `none` when the player
is excluded (`weightKg <= 0` or `heightM <= 0`). -/
def imcValue (p : PlayerRecord) : Option ℚ :=
  let weightKg := p.weightGrams / 1000
  let heightM := p.heightCm / 100
  if weightKg ≤ 0 then none
  else if heightM ≤ 0 then none
  else some (weightKg / (heightM * heightM))

/-- The surviving BMI values (source `.map(...).filter(imc => imc !== null)`). -/
def imcValues (players : List PlayerRecord) : List ℚ :=
  players.filterMap imcValue

/-- Source lines 361-380: median of the heights of all players.  The
source sorts with the ascending numeric comparator `(a, b) => a - b`;
`List.insertionSort (· ≤ ·)` produces the same list (the sorted
permutation of a list of rationals is unique).  The `undefined` fallbacks
of the source (value 0) are the `none` match arms. -/
def medianHeight (players : List PlayerRecord) : ℚ :=
  let heights := List.insertionSort (· ≤ ·) (players.map fun p => p.heightCm)
  if heights.length % 2 = 0 then
    match heights[heights.length / 2 - 1]?, heights[heights.length / 2]? with
    | some m₁, some m₂ => (m₁ + m₂) / 2
    | _, _ => 0
  else
    match heights[heights.length / 2]? with
    | some m => m
    | none => 0

/-- The statistics engine, `getSpecificStats` after the records have been
materialized: empty-set check, win-rate pass and selection, BMI pass with
the no-valid-data check, median, result assembly. -/
def computeStatistics (players : List PlayerRecord) :
    Except StatsError StatsResult :=
  if players.length = 0 then .error .emptyDataSet
  else
    let best := bestOf (countryStats players)
    let imcs := imcValues players
    if imcs.length = 0 then .error .noValidAnthropometricData
    else
      .ok ⟨best, jsRound2 (imcs.sum / (imcs.length : ℚ)),
        medianHeight players, players.length⟩

/-- Written from the spec (section 4.1): round half away from zero to
2 decimal places. -/
def roundAway2 (x : ℚ) : ℚ :=
  if 0 ≤ x then ((⌊x * 100 + 1/2⌋ : ℤ) : ℚ) / 100
  else -(((⌊-(x * 100) + 1/2⌋ : ℤ) : ℚ) / 100)

/-- Written from the spec (section 4.1, median algorithm): collect every
height, sort ascending; an odd count gives the element at index
`count / 2`, an even count the arithmetic mean of the elements at indices
`count / 2 - 1` and `count / 2`. -/
def specMedianHeight (hs : List ℚ) : ℚ :=
  let s := List.insertionSort (· ≤ ·) hs
  if s.length % 2 = 0 then (s.getD (s.length / 2 - 1) 0 + s.getD (s.length / 2) 0) / 2
  else s.getD (s.length / 2) 0

/-- A record qualifies for the BMI aggregate when both its weight and its
height are strictly positive. -/
def validAnthro (p : PlayerRecord) : Bool :=
  decide (0 < p.weightGrams) && decide (0 < p.heightCm)

/-- Written from the spec (section 4.1, BMI algorithm): the BMI of one
record, `weightKg / heightM ^ 2`. -/
def bmi (p : PlayerRecord) : ℚ :=
  (p.weightGrams / 1000) / ((p.heightCm / 100) ^ 2)

/-- A record whose weight has been replaced by 0, all other fields kept. -/
def zeroWeight (p : PlayerRecord) : PlayerRecord :=
  ⟨p.fullName, p.countryCode, 0, p.heightCm, p.lastFiveResults⟩

/-- The player list with the weight of the record at position `i`
replaced by 0 (out-of-range `i` leaves the list unchanged). -/
def zeroWeightAt (i : ℕ) (players : List PlayerRecord) : List PlayerRecord :=
  match i, players with
  | _, [] => []
  | 0, p :: ps => zeroWeight p :: ps
  | i + 1, p :: ps => p :: zeroWeightAt i ps

/-! Basic evaluation lemmas. -/

theorem jsRound2_zero : jsRound2 0 = 0 := by
  have h : ⌊(0:ℚ) * 100 + 1/2⌋ = 0 := by
    rw [Int.floor_eq_iff]
    norm_num
  unfold jsRound2
  rw [h]
  norm_num

theorem roundAway2_of_nonneg (x : ℚ) (hx : 0 ≤ x) : roundAway2 x = jsRound2 x := by
  simp [roundAway2, jsRound2, hx]

theorem imcValue_zeroWeight (p : PlayerRecord) : imcValue (zeroWeight p) = none := by
  simp [imcValue, zeroWeight]

/-- Claim C3: `computeStatistics` on the empty record set fails with
`EmptyDataSetError`; the non-emptiness check fires at entry, before the
aggregations (in particular the error is `emptyDataSet`, not the
`noValidAnthropometricData` that the — also empty — BMI set would raise
later). -/
theorem computeStatistics_empty :
    computeStatistics [] = .error .emptyDataSet := rfl

/-! Frame lemmas: the country aggregation and the median never read
`weightGrams`. -/

theorem addPlayer_zeroWeight (acc : List (String × CountryStat)) (p : PlayerRecord) :
    addPlayer acc (zeroWeight p) = addPlayer acc p := rfl

theorem foldl_addPlayer_zeroWeightAt (players : List PlayerRecord) :
    ∀ (i : ℕ) (acc : List (String × CountryStat)),
      (zeroWeightAt i players).foldl addPlayer acc = players.foldl addPlayer acc := by
  induction players with
  | nil => intro i acc; cases i <;> rfl
  | cons p ps ih =>
    intro i acc
    cases i with
    | zero => simp [zeroWeightAt, List.foldl, addPlayer_zeroWeight]
    | succ j => simp [zeroWeightAt, List.foldl, ih j]

theorem map_height_zeroWeightAt (players : List PlayerRecord) :
    ∀ i : ℕ, (zeroWeightAt i players).map (fun p => p.heightCm) =
      players.map fun p => p.heightCm := by
  induction players with
  | nil => intro i; cases i <;> rfl
  | cons p ps ih =>
    intro i
    cases i with
    | zero => simp [zeroWeightAt, zeroWeight]
    | succ j => simp [zeroWeightAt, ih j]

theorem medianHeight_congr (ps qs : List PlayerRecord)
    (h : ps.map (fun p => p.heightCm) = qs.map fun p => p.heightCm) :
    medianHeight ps = medianHeight qs := by
  unfold medianHeight
  rw [h]

/-- Claim C8: a record whose weight is replaced by 0 is excluded from the
BMI aggregate, while the country aggregation, the best-country selection
and the height median are unchanged — neither computation reads
`weightGrams`. -/
theorem zeroWeight_frame (players : List PlayerRecord) (i : ℕ) :
    countryStats (zeroWeightAt i players) = countryStats players ∧
    bestOf (countryStats (zeroWeightAt i players)) = bestOf (countryStats players) ∧
    medianHeight (zeroWeightAt i players) = medianHeight players ∧
    ∀ p : PlayerRecord, imcValue (zeroWeight p) = none := by
  have hcs : countryStats (zeroWeightAt i players) = countryStats players :=
    foldl_addPlayer_zeroWeightAt players i []
  exact ⟨hcs, by rw [hcs],
    medianHeight_congr _ _ (map_height_zeroWeightAt players i),
    imcValue_zeroWeight⟩

/-- Claim C4: for a non-empty record set the median is taken over the
heights of all records, sorted ascending, with the middle element for an
odd count and the mean of the two central elements for an even count. -/
theorem medianHeight_meets_spec (players : List PlayerRecord) (hne : players ≠ []) :
    medianHeight players = specMedianHeight (players.map fun p => p.heightCm) := by
  unfold medianHeight specMedianHeight
  have hlen : (List.insertionSort (· ≤ ·) (players.map fun p => p.heightCm)).length =
      players.length := by
    rw [List.length_insertionSort, List.length_map]
  set s := List.insertionSort (· ≤ ·) (players.map fun p => p.heightCm) with hs
  have hpos : 0 < s.length := by
    rw [hlen]
    exact List.length_pos.mpr hne
  have hmid : s.length / 2 < s.length := Nat.div_lt_self hpos (by norm_num)
  by_cases hpar : s.length % 2 = 0
  · have h2 : 2 ≤ s.length := by
      rcases Nat.lt_or_ge s.length 2 with h | h
      · interval_cases hval : s.length <;> omega
      · exact h
    have hlo : s.length / 2 - 1 < s.length := by omega
    rw [if_pos hpar, if_pos hpar, List.getElem?_eq_getElem hlo,
      List.getElem?_eq_getElem hmid, List.getD_eq_getElem s 0 hlo,
      List.getD_eq_getElem s 0 hmid]
  · rw [if_neg hpar, if_neg hpar, List.getElem?_eq_getElem hmid,
      List.getD_eq_getElem s 0 hmid]

/-! The BMI pass: characterization of the exclusion filter. -/

theorem validAnthro_iff (p : PlayerRecord) :
    validAnthro p = true ↔ 0 < p.weightGrams ∧ 0 < p.heightCm := by
  simp [validAnthro]

theorem imcValue_eq (p : PlayerRecord) :
    imcValue p = if 0 < p.weightGrams ∧ 0 < p.heightCm then some (bmi p) else none := by
  have hw : p.weightGrams / 1000 ≤ 0 ↔ p.weightGrams ≤ 0 := by
    rw [div_le_iff (by norm_num : (0:ℚ) < 1000)]
    norm_num
  have hh : p.heightCm / 100 ≤ 0 ↔ p.heightCm ≤ 0 := by
    rw [div_le_iff (by norm_num : (0:ℚ) < 100)]
    norm_num
  simp only [imcValue, bmi]
  by_cases h1 : p.weightGrams ≤ 0
  · rw [if_pos (hw.mpr h1), if_neg fun hc => absurd hc.1 (not_lt.mpr h1)]
  · rw [if_neg fun hc => h1 (hw.mp hc)]
    by_cases h2 : p.heightCm ≤ 0
    · rw [if_pos (hh.mpr h2), if_neg fun hc => absurd hc.2 (not_lt.mpr h2)]
    · rw [if_neg fun hc => h2 (hh.mp hc),
        if_pos ⟨lt_of_not_ge h1, lt_of_not_ge h2⟩, pow_two]

theorem imcValues_eq (players : List PlayerRecord) :
    imcValues players = (players.filter validAnthro).map bmi := by
  induction players with
  | nil => rfl
  | cons p ps ih =>
    simp only [imcValues] at ih ⊢
    by_cases h : 0 < p.weightGrams ∧ 0 < p.heightCm
    · have hsome : imcValue p = some (bmi p) := by rw [imcValue_eq, if_pos h]
      rw [List.filterMap_cons_some hsome,
        List.filter_cons_of_pos ((validAnthro_iff p).mpr h), List.map_cons, ih]
    · have hnone : imcValue p = none := by rw [imcValue_eq, if_neg h]
      rw [List.filterMap_cons_none hnone,
        List.filter_cons_of_neg (fun hc => h ((validAnthro_iff p).mp hc)), ih]

/-- Claim C2: for a non-empty record set, if no record has both positive
weight and positive height the whole call fails with
`NoValidAnthropometricDataError` (no partial result), while a single
invalid record never aborts the call by itself: as soon as one record
qualifies, the computation returns a full result. -/
theorem computeStatistics_anthro_failure (players : List PlayerRecord)
    (hne : players ≠ []) :
    ((∀ p ∈ players, ¬(0 < p.weightGrams ∧ 0 < p.heightCm)) →
      computeStatistics players = .error .noValidAnthropometricData) ∧
    ((∃ p ∈ players, 0 < p.weightGrams ∧ 0 < p.heightCm) →
      ∃ s, computeStatistics players = .ok s ∧ s.totalPlayers = players.length) := by
  have hlen : ¬players.length = 0 := by
    simpa [List.length_eq_zero] using hne
  constructor
  · intro hall
    have hnil : imcValues players = [] := by
      rw [imcValues_eq]
      have hf : players.filter validAnthro = [] := by
        rw [List.filter_eq_nil]
        intro a ha
        simpa [validAnthro_iff] using hall a ha
      rw [hf, List.map_nil]
    rw [computeStatistics, if_neg hlen]
    simp [hnil]
  · rintro ⟨p, hp, hvp⟩
    have hmem : bmi p ∈ imcValues players := by
      rw [imcValues_eq]
      exact List.mem_map_of_mem _ (List.mem_filter.mpr ⟨hp, (validAnthro_iff p).mpr hvp⟩)
    have hlen2 : ¬(imcValues players).length = 0 := by
      rw [List.length_eq_zero]
      exact List.ne_nil_of_mem hmem
    rw [computeStatistics, if_neg hlen]
    simp only [if_neg hlen2]
    exact ⟨_, rfl, rfl⟩

/-- Demo input for claim C2: a single record with weight 0. -/
def c2demo : List PlayerRecord := [⟨"Invalid Player", "TST", 0, 180, [1, 0, 0, 0, 0]⟩]

/-- Witness for claim C2 at a concrete input: one record with weight 0
makes the whole call fail with `NoValidAnthropometricDataError`. -/
theorem computeStatistics_anthro_failure_witness :
    computeStatistics c2demo = .error .noValidAnthropometricData :=
  (computeStatistics_anthro_failure c2demo (by simp [c2demo])).1
    (by
      intro p hp
      simp only [c2demo, List.mem_singleton] at hp
      subst hp
      norm_num)

/-- Claim C5: whenever at least one record has positive weight and height,
the call succeeds and `averageIMC` is the mean BMI over exactly the
qualifying records, rounded to 2 decimal places. -/
theorem averageIMC_meets_spec (players : List PlayerRecord)
    (h : ∃ p ∈ players, 0 < p.weightGrams ∧ 0 < p.heightCm) :
    ∃ s, computeStatistics players = .ok s ∧
      s.averageIMC = jsRound2 (((players.filter validAnthro).map bmi).sum /
        (((players.filter validAnthro).map bmi).length : ℚ)) := by
  obtain ⟨p, hp, hvp⟩ := h
  have hlen : ¬players.length = 0 := by
    simpa [List.length_eq_zero] using List.ne_nil_of_mem hp
  have hmem : bmi p ∈ imcValues players := by
    rw [imcValues_eq]
    exact List.mem_map_of_mem _ (List.mem_filter.mpr ⟨hp, (validAnthro_iff p).mpr hvp⟩)
  have hlen2 : ¬(imcValues players).length = 0 := by
    rw [List.length_eq_zero]
    exact List.ne_nil_of_mem hmem
  rw [computeStatistics, if_neg hlen]
  simp only [if_neg hlen2]
  exact ⟨_, rfl, by rw [imcValues_eq]⟩

/-- Demo input for claim C5: a single qualifying record. -/
def c5demo : List PlayerRecord := [⟨"Valid Player", "OK", 80000, 180, [1, 1, 1, 1, 1]⟩]

/-- Witness for claim C5 at a concrete input. -/
theorem averageIMC_meets_spec_witness :
    ∃ s, computeStatistics c5demo = .ok s ∧
      s.averageIMC = jsRound2 (((c5demo.filter validAnthro).map bmi).sum /
        (((c5demo.filter validAnthro).map bmi).length : ℚ)) :=
  averageIMC_meets_spec c5demo
    ⟨⟨"Valid Player", "OK", 80000, 180, [1, 1, 1, 1, 1]⟩,
      by simp [c5demo], by norm_num⟩

/-- Demo input for claim C6: the three players of the spec example
(weights 85000, 85000, 72000 grams; heights 185, 185, 175 centimeters). -/
def bmiDemo : List PlayerRecord :=
  [⟨"Rafael Nadal", "ESP", 85000, 185, [1, 1, 1, 0, 0]⟩,
   ⟨"Roger Federer", "SUI", 85000, 185, [1, 1, 0, 1, 1]⟩,
   ⟨"Serena Williams", "USA", 72000, 175, [1, 1, 1, 1, 1]⟩]

theorem imcValues_bmiDemo :
    imcValues bmiDemo = [34000/1369, 34000/1369, 1152/49] := by
  norm_num [imcValues, bmiDemo, imcValue, List.filterMap_cons]

theorem computeStatistics_bmiDemo_averageIMC :
    (computeStatistics bmiDemo).toOption.map (fun s => s.averageIMC) =
      some (2439/100) := by
  have hfloor : ⌊(4909088:ℚ)/201243 * 100 + 1/2⌋ = 2439 := by
    rw [Int.floor_eq_iff]
    norm_num
  have hv : (([34000/1369, 34000/1369, 1152/49] : List ℚ).sum /
      ((([34000/1369, 34000/1369, 1152/49] : List ℚ).length : ℕ) : ℚ)) = 4909088/201243 := by
    norm_num [List.sum_cons]
  rw [computeStatistics, if_neg (by norm_num [bmiDemo])]
  simp only [imcValues_bmiDemo]
  rw [if_neg (by norm_num)]
  simp only [Except.toOption, Option.map_some']
  rw [hv, jsRound2, hfloor]
  norm_num

/-- Claim C6 counterexample: on the three demo players the engine computes
`averageIMC = 24.39`, not `24.40` as claimed.  The exact mean of the three
unrounded BMIs is 4909088/201243 ≈ 24.3938, which rounds to 24.39; the
value 24.40 arises only when the already-rounded per-player BMIs
(24.84, 24.84, 23.51) are averaged, which is not what the code does. -/
theorem averageIMC_demo_counterexample :
    (computeStatistics bmiDemo).toOption.map (fun s => s.averageIMC) =
      some (2439/100) ∧
    (computeStatistics bmiDemo).toOption.map (fun s => s.averageIMC) ≠
      some (2440/100) := by
  refine ⟨computeStatistics_bmiDemo_averageIMC, ?_⟩
  rw [computeStatistics_bmiDemo_averageIMC]
  intro hc
  have h := Option.some.inj hc
  norm_num at h

/-- Claim C6 amended: the BMI of one 85000 g / 185 cm player is 34000/1369
≈ 24.84 (rounding to 24.84, as claimed), but the computed `averageIMC` over
the three demo players is 24.39, the mean of the unrounded BMIs rounded
once at the end — not 24.40. -/
theorem averageIMC_demo_amended :
    imcValue ⟨"Rafael Nadal", "ESP", 85000, 185, [1, 1, 1, 0, 0]⟩ =
      some (34000/1369) ∧
    jsRound2 (34000/1369) = 2484/100 ∧
    (computeStatistics bmiDemo).toOption.map (fun s => s.averageIMC) =
      some (2439/100) := by
  refine ⟨by norm_num [imcValue], ?_, computeStatistics_bmiDemo_averageIMC⟩
  have hfloor : ⌊(34000:ℚ)/1369 * 100 + 1/2⌋ = 2484 := by
    rw [Int.floor_eq_iff]
    norm_num
  rw [jsRound2, hfloor]
  norm_num

/-! Structural lemmas about the country accumulator. -/

theorem updateAssoc_ne_nil (l : List (String × CountryStat)) (c : String)
    (w : ℚ) (t : ℕ) (n : String) : updateAssoc l c w t n ≠ [] := by
  match l with
  | [] => simp [updateAssoc]
  | (c₀, s) :: rest =>
    simp only [updateAssoc]
    split <;> simp

theorem foldl_addPlayer_ne_nil (players : List PlayerRecord) :
    ∀ acc : List (String × CountryStat), acc ≠ [] ∨ players ≠ [] →
      players.foldl addPlayer acc ≠ [] := by
  induction players with
  | nil =>
    intro acc h
    simpa using h.resolve_right (by simp)
  | cons p ps ih =>
    intro acc _
    exact ih (addPlayer acc p) (Or.inl (updateAssoc_ne_nil acc p.countryCode _ _ _))

theorem countryStats_ne_nil (players : List PlayerRecord) (h : players ≠ []) :
    countryStats players ≠ [] :=
  foldl_addPlayer_ne_nil players [] (Or.inr h)

theorem mem_updateAssoc (l : List (String × CountryStat)) (c : String)
    (w : ℚ) (t : ℕ) (n : String) (e : String × CountryStat)
    (he : e ∈ updateAssoc l c w t n) : e.1 = c ∨ e ∈ l := by
  induction l with
  | nil =>
    simp only [updateAssoc, List.mem_singleton] at he
    subst he
    exact Or.inl rfl
  | cons hd rest ih =>
    obtain ⟨c₀, s⟩ := hd
    simp only [updateAssoc] at he
    by_cases hc : c₀ = c
    · rw [if_pos hc] at he
      rcases List.mem_cons.mp he with h | h
      · subst h
        exact Or.inl hc
      · exact Or.inr (List.mem_cons_of_mem _ h)
    · rw [if_neg hc] at he
      rcases List.mem_cons.mp he with h | h
      · subst h
        exact Or.inr (List.mem_cons_self _ _)
      · rcases ih h with h' | h'
        · exact Or.inl h'
        · exact Or.inr (List.mem_cons_of_mem _ h')

theorem mem_foldl_addPlayer (players : List PlayerRecord) :
    ∀ (acc : List (String × CountryStat)) (e : String × CountryStat),
      e ∈ players.foldl addPlayer acc →
      e ∈ acc ∨ ∃ p ∈ players, e.1 = p.countryCode := by
  induction players with
  | nil =>
    intro acc e he
    exact Or.inl he
  | cons p ps ih =>
    intro acc e he
    rcases ih (addPlayer acc p) e he with h | ⟨q, hq, hqe⟩
    · rcases mem_updateAssoc acc p.countryCode _ _ _ e h with h' | h'
      · exact Or.inr ⟨p, List.mem_cons_self _ _, h'⟩
      · exact Or.inl h'
    · exact Or.inr ⟨q, List.mem_cons_of_mem _ hq, hqe⟩

theorem countryStats_keys (players : List PlayerRecord)
    (e : String × CountryStat) (he : e ∈ countryStats players) :
    ∃ p ∈ players, e.1 = p.countryCode := by
  rcases mem_foldl_addPlayer players [] e he with h | h
  · simp at h
  · exact h

/-! Bounds on the aggregates when the match results are binary. -/

theorem binary_sum_bounds (l : List ℚ) (h : ∀ x ∈ l, x = 0 ∨ x = 1) :
    0 ≤ l.sum ∧ l.sum ≤ (l.length : ℚ) := by
  induction l with
  | nil => simp
  | cons x xs ih =>
    obtain ⟨h0, h1⟩ := ih fun y hy => h y (List.mem_cons_of_mem _ hy)
    rcases h x (List.mem_cons_self _ _) with hx | hx <;>
      subst hx <;>
      constructor <;>
      simp [List.sum_cons] <;>
      push_cast <;>
      linarith

theorem updateAssoc_bounds (l : List (String × CountryStat)) (c : String)
    (w : ℚ) (t : ℕ) (n : String)
    (hl : ∀ e ∈ l, 0 ≤ e.2.wins ∧ e.2.wins ≤ (e.2.total : ℚ))
    (hw : 0 ≤ w) (hwt : w ≤ (t : ℚ)) :
    ∀ e ∈ updateAssoc l c w t n, 0 ≤ e.2.wins ∧ e.2.wins ≤ (e.2.total : ℚ) := by
  induction l with
  | nil =>
    intro e he
    simp only [updateAssoc, List.mem_singleton] at he
    subst he
    exact ⟨hw, hwt⟩
  | cons hd rest ih =>
    obtain ⟨c₀, s⟩ := hd
    have hhd := hl (c₀, s) (List.mem_cons_self _ _)
    have hrest : ∀ e ∈ rest, 0 ≤ e.2.wins ∧ e.2.wins ≤ (e.2.total : ℚ) :=
      fun e he => hl e (List.mem_cons_of_mem _ he)
    intro e he
    simp only [updateAssoc] at he
    by_cases hc : c₀ = c
    · rw [if_pos hc] at he
      rcases List.mem_cons.mp he with h | h
      · subst h
        refine ⟨add_nonneg hhd.1 hw, ?_⟩
        push_cast
        exact add_le_add hhd.2 hwt
      · exact hrest e h
    · rw [if_neg hc] at he
      rcases List.mem_cons.mp he with h | h
      · subst h
        exact hhd
      · exact ih hrest e h

theorem countryStats_bounds (players : List PlayerRecord)
    (hb : ∀ p ∈ players, ∀ x ∈ p.lastFiveResults, x = 0 ∨ x = 1) :
    ∀ e ∈ countryStats players, 0 ≤ e.2.wins ∧ e.2.wins ≤ (e.2.total : ℚ) := by
  suffices h : ∀ acc : List (String × CountryStat),
      (∀ e ∈ acc, 0 ≤ e.2.wins ∧ e.2.wins ≤ (e.2.total : ℚ)) →
      ∀ e ∈ players.foldl addPlayer acc, 0 ≤ e.2.wins ∧ e.2.wins ≤ (e.2.total : ℚ) by
    exact h [] (by simp)
  induction players with
  | nil => intro acc hacc; exact hacc
  | cons p ps ih =>
    intro acc hacc
    have hp := binary_sum_bounds p.lastFiveResults
      (hb p (List.mem_cons_self _ _))
    exact ih (fun q hq x hx => hb q (List.mem_cons_of_mem _ hq) x hx)
      (addPlayer acc p)
      (updateAssoc_bounds acc p.countryCode _ _ _ hacc hp.1 hp.2)

theorem ratioOf_bounds (s : CountryStat) (h0 : 0 ≤ s.wins)
    (h1 : s.wins ≤ (s.total : ℚ)) : 0 ≤ ratioOf s ∧ ratioOf s ≤ 100 := by
  unfold ratioOf
  split
  · rename_i ht
    have htq : (0:ℚ) < (s.total : ℚ) := by exact_mod_cast ht
    constructor
    · positivity
    · have : s.wins / (s.total : ℚ) ≤ 1 := (div_le_one htq).mpr h1
      nlinarith
  · norm_num

theorem jsRound2_bounds (x : ℚ) (h0 : 0 ≤ x) (h1 : x ≤ 100) :
    0 ≤ jsRound2 x ∧ jsRound2 x ≤ 100 := by
  unfold jsRound2
  have hlo : (0:ℤ) ≤ ⌊x * 100 + 1/2⌋ := by
    rw [Int.le_floor]
    push_cast
    linarith
  have hhi : ⌊x * 100 + 1/2⌋ ≤ 10000 := by
    rw [← Int.lt_add_one_iff, Int.floor_lt]
    push_cast
    linarith
  constructor
  · positivity
  · rw [div_le_iff (by norm_num : (0:ℚ) < 100)]
    exact_mod_cast le_trans (by exact_mod_cast hhi) (by norm_num)

/-! The selection fold: every reachable value is the initial sentinel or
the rounded image of some processed aggregate. -/

theorem stepBest_cases (b : BestCountry) (e : String × CountryStat) :
    stepBest b e = b ∨ stepBest b e = mkBest e := by
  unfold stepBest
  split
  · exact Or.inr rfl
  · exact Or.inl rfl

theorem foldl_stepBest_cases (l : List (String × CountryStat)) :
    ∀ b : BestCountry,
      l.foldl stepBest b = b ∨ ∃ e ∈ l, l.foldl stepBest b = mkBest e := by
  induction l with
  | nil => intro b; exact Or.inl rfl
  | cons e rest ih =>
    intro b
    rw [List.foldl_cons]
    rcases ih (stepBest b e) with h | ⟨e', he', h⟩
    · rcases stepBest_cases b e with hs | hs
      · exact Or.inl (h.trans hs)
      · exact Or.inr ⟨e, List.mem_cons_self _ _, h.trans hs⟩
    · exact Or.inr ⟨e', List.mem_cons_of_mem _ he', h⟩

theorem stepBest_initBest (e : String × CountryStat) (h : 0 ≤ ratioOf e.2) :
    stepBest initBest e = mkBest e := by
  unfold stepBest initBest
  rcases h.lt_or_eq with h' | h'
  · rw [if_pos (Or.inl h')]
  · rw [if_pos (Or.inr ⟨h'.symm, rfl⟩)]

theorem bestOf_mem (l : List (String × CountryStat)) (hne : l ≠ [])
    (hpos : ∀ e ∈ l, 0 ≤ ratioOf e.2) :
    ∃ e ∈ l, bestOf l = mkBest e := by
  match l with
  | e :: rest =>
    unfold bestOf
    rw [List.foldl_cons, stepBest_initBest e (hpos e (List.mem_cons_self _ _))]
    rcases foldl_stepBest_cases rest (mkBest e) with h | ⟨e', he', h⟩
    · exact ⟨e, List.mem_cons_self _ _, h⟩
    · exact ⟨e', List.mem_cons_of_mem _ he', h⟩

theorem foldl_stepBest_fixed (l : List (String × CountryStat)) (b : BestCountry)
    (h : ∀ e ∈ l, ¬(ratioOf e.2 > b.winRate ∨
      (ratioOf e.2 = b.winRate ∧ b.code = ""))) :
    l.foldl stepBest b = b := by
  induction l with
  | nil => rfl
  | cons e rest ih =>
    rw [List.foldl_cons]
    have hb : stepBest b e = b := by
      unfold stepBest
      rw [if_neg (h e (List.mem_cons_self _ _))]
    rw [hb]
    exact ih fun e' he' => h e' (List.mem_cons_of_mem _ he')

/-! The first aggregate entry carries the country of the first record. -/

theorem updateAssoc_headKey_cons (hd : String × CountryStat)
    (rest : List (String × CountryStat)) (c : String) (w : ℚ) (t : ℕ) (n : String) :
    (updateAssoc (hd :: rest) c w t n).head?.map Prod.fst = some hd.1 := by
  obtain ⟨c₀, s⟩ := hd
  simp only [updateAssoc]
  split <;> simp

theorem foldl_addPlayer_headKey (players : List PlayerRecord) :
    ∀ acc : List (String × CountryStat), acc ≠ [] →
      (players.foldl addPlayer acc).head?.map Prod.fst = acc.head?.map Prod.fst := by
  induction players with
  | nil => intro acc _; rfl
  | cons p ps ih =>
    intro acc hacc
    match acc, hacc with
    | hd :: rest, _ =>
      rw [List.foldl_cons,
        ih (addPlayer (hd :: rest) p) (updateAssoc_ne_nil (hd :: rest) p.countryCode _ _ _)]
      exact updateAssoc_headKey_cons hd rest p.countryCode _ _ _

theorem countryStats_headKey (p : PlayerRecord) (ps : List PlayerRecord) :
    (countryStats (p :: ps)).head?.map Prod.fst = some p.countryCode := by
  unfold countryStats
  rw [List.foldl_cons,
    foldl_addPlayer_headKey ps (addPlayer [] p) (updateAssoc_ne_nil [] p.countryCode _ _ _)]
  rfl

/-! All-loss inputs: every aggregate carries zero wins. -/

theorem updateAssoc_wins_zero (l : List (String × CountryStat)) (c : String)
    (w : ℚ) (t : ℕ) (n : String) (hl : ∀ e ∈ l, e.2.wins = 0) (hw : w = 0) :
    ∀ e ∈ updateAssoc l c w t n, e.2.wins = 0 := by
  induction l with
  | nil =>
    intro e he
    simp only [updateAssoc, List.mem_singleton] at he
    subst he
    exact hw
  | cons hd rest ih =>
    obtain ⟨c₀, s⟩ := hd
    intro e he
    simp only [updateAssoc] at he
    by_cases hc : c₀ = c
    · rw [if_pos hc] at he
      rcases List.mem_cons.mp he with h | h
      · subst h
        have h0 : s.wins = 0 := hl (c₀, s) (List.mem_cons_self _ _)
        simp [h0, hw]
      · exact hl e (List.mem_cons_of_mem _ h)
    · rw [if_neg hc] at he
      rcases List.mem_cons.mp he with h | h
      · subst h
        exact hl (c₀, s) (List.mem_cons_self _ _)
      · exact ih (fun e' he' => hl e' (List.mem_cons_of_mem _ he')) e h

theorem countryStats_wins_zero (players : List PlayerRecord)
    (hz : ∀ p ∈ players, ∀ x ∈ p.lastFiveResults, x = (0:ℚ)) :
    ∀ e ∈ countryStats players, e.2.wins = 0 := by
  suffices h : ∀ acc : List (String × CountryStat), (∀ e ∈ acc, e.2.wins = 0) →
      ∀ e ∈ players.foldl addPlayer acc, e.2.wins = 0 by
    exact h [] (by simp)
  induction players with
  | nil => intro acc hacc; exact hacc
  | cons p ps ih =>
    intro acc hacc
    have hsum : p.lastFiveResults.sum = 0 :=
      List.sum_eq_zero (hz p (List.mem_cons_self _ _))
    exact ih (fun q hq x hx => hz q (List.mem_cons_of_mem _ hq) x hx)
      (addPlayer acc p)
      (updateAssoc_wins_zero acc p.countryCode _ _ _ hacc hsum)

theorem ratioOf_of_wins_zero (s : CountryStat) (h : s.wins = 0) :
    ratioOf s = 0 := by
  unfold ratioOf
  rw [h]
  split <;> simp

/-- Claim C7: the reported winRatePercent of the selected country is that
country's own raw ratio rounded to 2 decimal places with
round-half-away-from-zero semantics. -/
theorem winRate_rounding (players : List PlayerRecord) (hne : players ≠ [])
    (hb : ∀ p ∈ players, ∀ x ∈ p.lastFiveResults, x = 0 ∨ x = 1) :
    ∃ e ∈ countryStats players,
      (bestOf (countryStats players)).code = e.1 ∧
      (bestOf (countryStats players)).winRate = roundAway2 (ratioOf e.2) := by
  have h1 := countryStats_bounds players hb
  have hpos : ∀ e ∈ countryStats players, 0 ≤ ratioOf e.2 := fun e he =>
    (ratioOf_bounds e.2 (h1 e he).1 (h1 e he).2).1
  obtain ⟨e, he, hbe⟩ := bestOf_mem (countryStats players)
    (countryStats_ne_nil players hne) hpos
  refine ⟨e, he, ?_, ?_⟩
  · rw [hbe]
    rfl
  · rw [hbe, roundAway2_of_nonneg _ (hpos e he)]
    rfl

/-- Demo input for claim C7: one player whose ratio is 3.125, an exact
half-way value at 2 decimals, rounded up (away from zero) to 3.13. -/
def c7demo : List PlayerRecord :=
  [⟨"Half Way", "HHH", 80000, 180, 1 :: List.replicate 31 0⟩]

/-- Witness for claim C7 at a concrete input. -/
theorem winRate_rounding_witness :
    ∃ e ∈ countryStats c7demo,
      (bestOf (countryStats c7demo)).code = e.1 ∧
      (bestOf (countryStats c7demo)).winRate = roundAway2 (ratioOf e.2) :=
  winRate_rounding c7demo (by simp [c7demo])
    (by
      intro p hp x hx
      simp only [c7demo, List.mem_singleton] at hp
      subst hp
      simp only [List.mem_cons, List.mem_replicate] at hx
      rcases hx with h | h
      · exact Or.inr h
      · exact Or.inl h.2)

/-- Claim C9: with binary match results every aggregate satisfies
`0 ≤ wins ≤ totalMatches`, every ratio lies in [0, 100], and so does the
reported winRatePercent. -/
theorem countryStats_win_bounds (players : List PlayerRecord)
    (hb : ∀ p ∈ players, ∀ x ∈ p.lastFiveResults, x = 0 ∨ x = 1) :
    (∀ e ∈ countryStats players, 0 ≤ e.2.wins ∧ e.2.wins ≤ (e.2.total : ℚ)) ∧
    (∀ e ∈ countryStats players, 0 ≤ ratioOf e.2 ∧ ratioOf e.2 ≤ 100) ∧
    (0 ≤ (bestOf (countryStats players)).winRate ∧
      (bestOf (countryStats players)).winRate ≤ 100) := by
  have h1 := countryStats_bounds players hb
  have h2 : ∀ e ∈ countryStats players, 0 ≤ ratioOf e.2 ∧ ratioOf e.2 ≤ 100 :=
    fun e he => ratioOf_bounds e.2 (h1 e he).1 (h1 e he).2
  refine ⟨h1, h2, ?_⟩
  rcases foldl_stepBest_cases (countryStats players) initBest with h | ⟨e, he, h⟩
  · unfold bestOf
    rw [h]
    norm_num [initBest]
  · unfold bestOf
    rw [h]
    simpa [mkBest] using jsRound2_bounds _ (h2 e he).1 (h2 e he).2

/-- Demo input for claim C9. -/
def c9demo : List PlayerRecord := [⟨"Player A", "ESP", 80000, 180, [1, 1, 0, 0, 0]⟩]

/-- Witness for claim C9 at a concrete input. -/
theorem countryStats_win_bounds_witness :
    (∀ e ∈ countryStats c9demo, 0 ≤ e.2.wins ∧ e.2.wins ≤ (e.2.total : ℚ)) ∧
    (∀ e ∈ countryStats c9demo, 0 ≤ ratioOf e.2 ∧ ratioOf e.2 ≤ 100) ∧
    (0 ≤ (bestOf (countryStats c9demo)).winRate ∧
      (bestOf (countryStats c9demo)).winRate ≤ 100) :=
  countryStats_win_bounds c9demo
    (by
      intro p hp x hx
      simp only [c9demo, List.mem_singleton] at hp
      subst hp
      simp only [List.mem_cons, List.not_mem_nil, or_false] at hx
      rcases hx with h | h | h | h | h <;> subst h <;> norm_num)

/-- Claim C10: for a non-empty record set (with the binary results and the
non-empty country codes the data model guarantees) the returned country is
the country code of some input record — the sentinel never escapes; and
when every result is a loss the first-seen country is returned with
winRatePercent 0 and wins 0. -/
theorem bestCountry_from_input (players : List PlayerRecord) (hne : players ≠ [])
    (hb : ∀ p ∈ players, ∀ x ∈ p.lastFiveResults, x = 0 ∨ x = 1)
    (hcodes : ∀ p ∈ players, p.countryCode ≠ "") :
    (∃ p ∈ players, (bestOf (countryStats players)).code = p.countryCode) ∧
    ((∀ p ∈ players, ∀ x ∈ p.lastFiveResults, x = (0:ℚ)) →
      (bestOf (countryStats players)).code = (players.head hne).countryCode ∧
      (bestOf (countryStats players)).winRate = 0 ∧
      (bestOf (countryStats players)).wins = 0) := by
  have h1 := countryStats_bounds players hb
  have hpos : ∀ e ∈ countryStats players, 0 ≤ ratioOf e.2 := fun e he =>
    (ratioOf_bounds e.2 (h1 e he).1 (h1 e he).2).1
  constructor
  · obtain ⟨e, he, hbe⟩ := bestOf_mem _ (countryStats_ne_nil players hne) hpos
    obtain ⟨p, hp, hpe⟩ := countryStats_keys players e he
    exact ⟨p, hp, by rw [hbe]; exact hpe⟩
  · intro hz
    match players, hne with
    | p :: ps, _ =>
      have hwz := countryStats_wins_zero (p :: ps) hz
      obtain ⟨e₀, rest, hsplit⟩ :=
        List.exists_cons_of_ne_nil (countryStats_ne_nil (p :: ps) (by simp))
      have hkey : e₀.1 = p.countryCode := by
        have hh := countryStats_headKey p ps
        rw [hsplit] at hh
        simpa using hh
      have he₀mem : e₀ ∈ countryStats (p :: ps) := by
        rw [hsplit]
        exact List.mem_cons_self _ _
      have hr₀ : ratioOf e₀.2 = 0 := ratioOf_of_wins_zero e₀.2 (hwz e₀ he₀mem)
      have hstep : stepBest initBest e₀ = mkBest e₀ :=
        stepBest_initBest e₀ (by rw [hr₀])
      have hcode₀ : e₀.1 ≠ "" := by
        rw [hkey]
        exact hcodes p (List.mem_cons_self _ _)
      have hwr : (mkBest e₀).winRate = 0 := by
        simp [mkBest, hr₀, jsRound2_zero]
      have hfix : rest.foldl stepBest (mkBest e₀) = mkBest e₀ := by
        apply foldl_stepBest_fixed
        intro e he
        have hre : ratioOf e.2 = 0 := ratioOf_of_wins_zero e.2
          (hwz e (by rw [hsplit]; exact List.mem_cons_of_mem _ he))
        rw [hre, hwr]
        rintro (hgt | ⟨-, hc⟩)
        · exact absurd hgt (lt_irrefl 0)
        · exact hcode₀ hc
      have hbest : bestOf (countryStats (p :: ps)) = mkBest e₀ := by
        unfold bestOf
        rw [hsplit, List.foldl_cons, hstep, hfix]
      refine ⟨?_, ?_, ?_⟩
      · rw [hbest]
        exact hkey
      · rw [hbest]
        exact hwr
      · rw [hbest]
        exact hwz e₀ he₀mem

/-- Demo input for claim C10: two countries, every match lost. -/
def c10demo : List PlayerRecord :=
  [⟨"First Loss", "AAA", 80000, 180, [0, 0, 0, 0, 0]⟩,
   ⟨"Second Loss", "BBB", 75000, 175, [0, 0, 0, 0, 0]⟩]

/-- Witness for claim C10 at a concrete input: the first-seen country AAA
is returned with winRate 0 and wins 0. -/
theorem bestCountry_from_input_witness :
    (bestOf (countryStats c10demo)).code = "AAA" ∧
    (bestOf (countryStats c10demo)).winRate = 0 ∧
    (bestOf (countryStats c10demo)).wins = 0 :=
  (bestCountry_from_input c10demo (by simp [c10demo])
    (by
      intro p hp x hx
      simp only [c10demo, List.mem_cons, List.not_mem_nil, or_false] at hp
      rcases hp with h | h <;> subst h <;>
        simp only [List.mem_cons, List.not_mem_nil, or_false] at hx <;>
        rcases hx with h' | h' | h' | h' | h' <;> subst h' <;> exact Or.inl rfl)
    (by
      intro p hp
      simp only [c10demo, List.mem_cons, List.not_mem_nil, or_false] at hp
      rcases hp with h | h <;> subst h <;> simp)).2
    (by
      intro p hp x hx
      simp only [c10demo, List.mem_cons, List.not_mem_nil, or_false] at hp
      rcases hp with h | h <;> subst h <;>
        simp only [List.mem_cons, List.not_mem_nil, or_false] at hx <;>
        rcases hx with h' | h' | h' | h' | h' <;> subst h' <;> rfl)

/-- Demo input for claim C1: countries AA and BB, in this order, each with
3 players totalling 2 wins of 15 matches (identical ratio 40/3). -/
def tieDemo : List PlayerRecord :=
  [⟨"A One", "AA", 80000, 180, [1, 1, 0, 0, 0]⟩,
   ⟨"A Two", "AA", 80000, 180, [0, 0, 0, 0, 0]⟩,
   ⟨"A Three", "AA", 80000, 180, [0, 0, 0, 0, 0]⟩,
   ⟨"B One", "BB", 80000, 180, [1, 1, 0, 0, 0]⟩,
   ⟨"B Two", "BB", 80000, 180, [0, 0, 0, 0, 0]⟩,
   ⟨"B Three", "BB", 80000, 180, [0, 0, 0, 0, 0]⟩]

theorem countryStats_tieDemo :
    countryStats tieDemo =
      [("AA", ⟨2, 15, ["A One", "A Two", "A Three"]⟩),
       ("BB", ⟨2, 15, ["B One", "B Two", "B Three"]⟩)] := by
  norm_num [countryStats, tieDemo, addPlayer, updateAssoc, List.foldl_cons]
  decide

theorem ratioOf_tieStat (pl : List String) :
    ratioOf ⟨2, 15, pl⟩ = 40/3 := by
  norm_num [ratioOf]

theorem jsRound2_tieRatio : jsRound2 (40/3) = 1333/100 := by
  have hfloor : ⌊(40:ℚ)/3 * 100 + 1/2⌋ = 1333 := by
    rw [Int.floor_eq_iff]
    norm_num
  rw [jsRound2, hfloor]
  norm_num

theorem bestOf_tieDemo :
    (bestOf (countryStats tieDemo)).code = "BB" := by
  rw [countryStats_tieDemo]
  unfold bestOf
  rw [List.foldl_cons, List.foldl_cons, List.foldl_nil,
    stepBest_initBest ("AA", ⟨2, 15, ["A One", "A Two", "A Three"]⟩)
      (by rw [ratioOf_tieStat]; norm_num)]
  have hstep : stepBest (mkBest ("AA", ⟨2, 15, ["A One", "A Two", "A Three"]⟩))
      ("BB", ⟨2, 15, ["B One", "B Two", "B Three"]⟩) =
      mkBest ("BB", ⟨2, 15, ["B One", "B Two", "B Three"]⟩) := by
    unfold stepBest
    rw [if_pos]
    refine Or.inl ?_
    show ratioOf ⟨2, 15, ["B One", "B Two", "B Three"]⟩ >
      jsRound2 (ratioOf ⟨2, 15, ["A One", "A Two", "A Three"]⟩)
    rw [ratioOf_tieStat, ratioOf_tieStat, jsRound2_tieRatio]
    norm_num
  rw [hstep]
  rfl

/-- Claim C1 counterexample: countries AA and BB have identical win ratios
(2 wins of 15 matches each, raw ratio 40/3 ≈ 13.333), AA appears first in
the input, yet BB is returned as bestWinRateCountry: the loop compares a
candidate raw ratio against the stored best ratio, which was saved already
ROUNDED (13.33), and 40/3 > 13.33, so the later tied country replaces the
earlier one. -/
theorem bestCountry_tie_counterexample :
    countryStats tieDemo =
      [("AA", ⟨2, 15, ["A One", "A Two", "A Three"]⟩),
       ("BB", ⟨2, 15, ["B One", "B Two", "B Three"]⟩)] ∧
    (computeStatistics tieDemo).toOption.map
      (fun s => s.bestWinRateCountry.code) = some "BB" := by
  refine ⟨countryStats_tieDemo, ?_⟩
  have himc : imcValues tieDemo = List.replicate 6 (2000/81) := by
    norm_num [imcValues, imcValue, tieDemo, List.filterMap_cons, List.replicate]
  rw [computeStatistics, if_neg (by norm_num [tieDemo])]
  simp only [himc]
  rw [if_neg (by norm_num)]
  simp only [Except.toOption, Option.map_some']
  rw [bestOf_tieDemo]

/-- Claim C1 amended: the aggregates are iterated in first-seen order, but
the running best stores its ratio already rounded to 2 decimals, and a
candidate replaces it exactly when its raw ratio strictly exceeds that
rounded value (or ties it while the best still holds the initial
sentinel).  Consequently, for two countries with identical win ratios the
first-seen one is returned precisely when the shared ratio does not exceed
its own rounding (in particular whenever it is exact at 2 decimals); when
rounding lowers the ratio, the last-seen tied country wins. -/
theorem bestOf_tie_amended (cA cB : String) (sA sB : CountryStat)
    (hA : cA ≠ "") (hEq : ratioOf sA = ratioOf sB) (hPos : 0 ≤ ratioOf sA) :
    (bestOf [(cA, sA), (cB, sB)]).code =
      if ratioOf sA ≤ jsRound2 (ratioOf sA) then cA else cB := by
  unfold bestOf
  rw [List.foldl_cons, List.foldl_cons, List.foldl_nil,
    stepBest_initBest (cA, sA) hPos]
  by_cases h : ratioOf sA ≤ jsRound2 (ratioOf sA)
  · rw [if_pos h]
    have hstep : stepBest (mkBest (cA, sA)) (cB, sB) = mkBest (cA, sA) := by
      unfold stepBest
      rw [if_neg]
      rintro (hgt | ⟨-, hc⟩)
      · rw [show ((cB, sB) : String × CountryStat).2 = sB from rfl, ← hEq] at hgt
        exact absurd hgt (not_lt.mpr h)
      · exact hA hc
    rw [hstep]
    rfl
  · rw [if_neg h]
    have hstep : stepBest (mkBest (cA, sA)) (cB, sB) = mkBest (cB, sB) := by
      unfold stepBest
      rw [if_pos]
      refine Or.inl ?_
      show ratioOf sB > jsRound2 (ratioOf sA)
      rw [← hEq]
      exact lt_of_not_ge h
    rw [hstep]
    rfl

/-- Witness for the amended claim C1: with the exact shared ratio 40
(2 wins of 5), the first-seen country AA is returned. -/
theorem bestOf_tie_amended_witness :
    (bestOf [("AA", ⟨2, 5, ["A"]⟩), ("BB", ⟨2, 5, ["B"]⟩)]).code = "AA" := by
  have h := bestOf_tie_amended "AA" "BB" ⟨2, 5, ["A"]⟩ ⟨2, 5, ["B"]⟩
    (by simp) (by norm_num [ratioOf]) (by norm_num [ratioOf])
  rw [h, if_pos]
  have hr : ratioOf ⟨2, 5, ["A"]⟩ = 40 := by norm_num [ratioOf]
  have hfloor : ⌊(40:ℚ) * 100 + 1/2⌋ = 4000 := by
    rw [Int.floor_eq_iff]
    norm_num
  rw [hr, jsRound2, hfloor]
  norm_num

/-- Demo input for claim C4: four players with heights 170, 180, 190, 200
(the spec example for the even-count median). -/
def c4demo : List PlayerRecord :=
  [⟨"A A", "AA", 80000, 170, [1, 0, 0, 0, 0]⟩,
   ⟨"B B", "BB", 80000, 180, [1, 0, 0, 0, 0]⟩,
   ⟨"C C", "CC", 80000, 190, [1, 0, 0, 0, 0]⟩,
   ⟨"D D", "DD", 80000, 200, [1, 0, 0, 0, 0]⟩]

/-- Witness for claim C4 at a concrete input: heights [170, 180, 190, 200]
give median 185 (the mean of 180 and 190). -/
theorem medianHeight_meets_spec_witness :
    medianHeight c4demo = specMedianHeight (c4demo.map fun p => p.heightCm) ∧
    medianHeight c4demo = 185 :=
  ⟨medianHeight_meets_spec c4demo (by simp [c4demo]), by
    norm_num [medianHeight, c4demo, List.insertionSort, List.orderedInsert]⟩
